import Mathlib

/-!
Verification of the command-execution subsystem of the MCP server repository.

The JavaScript sources embedded here (shallowly, over `List Char` for JS
strings and `List Nat` for byte buffers) are:

* `test-direct-powershell.js` — `commandHelpers.isCommandAllowed`,
  `commandHelpers.sanitizeCommand`, `commandHelpers.executePowerShellCommand`
  (script template, base64/UTF-16LE payload, `processOutput`),
  `commandHelpers.executeCommand` (shell detection, Git Bash branch, CMD
  branch with the pipe/semicolon re-route, `processOutput`).
* `enhanced-mcp.js` — `safeExecuteCommand` (per-shell command lines, the
  PowerShell script template with its global dollar escaping).
* `unnamed/part_003` — `global.executeCommand`, `safeExecuteCommand`
  (spawn-based), `formatErrorMessage` (PowerShell stderr noise stripping).

JS strings are modelled as lists of unicode code points, which coincides
with UTF-16 code-unit semantics for all code points below 0x10000; the
`charCodeAt` comparisons of the sources only involve such values.
-/

set_option maxRecDepth 20000

deriving instance DecidableEq for Except

/-- Shorthand turning a Lean string literal into the character-list model of a JS string. -/
def chars (s : String) : List Char := s.data

/-- Character class of the JS regex class backslash-s and of the characters
removed by JS trim (whitespace plus line terminators). -/
def jsWs (c : Char) : Bool :=
  c = ' ' || c = '\t' || c = '\n' || c = '\x0b' || c = '\x0c' || c = '\x0d' ||
  c = '\u00A0' || c = '\u1680' || ('\u2000' ≤ c && c ≤ '\u200A') ||
  c = '\u2028' || c = '\u2029' || c = '\u202F' || c = '\u205F' ||
  c = '\u3000' || c = '\uFEFF'

/-- Model of JS toLowerCase as used on the ASCII command prefixes of the sources. -/
def jsToLower (l : List Char) : List Char := l.map Char.toLower

/-- Left part of JS String.prototype.trim. -/
def jsTrimLeft (l : List Char) : List Char := l.dropWhile jsWs

/-- Right part of JS String.prototype.trim. -/
def jsTrimRight (l : List Char) : List Char := (l.reverse.dropWhile jsWs).reverse

/-- Model of JS String.prototype.trim. -/
def jsTrim (l : List Char) : List Char := jsTrimRight (jsTrimLeft l)

/-- Model of `command.replace(/[`$]/g, "")` from `sanitizeCommand`
(test-direct-powershell.js line 241): drop every backtick and dollar sign. -/
def removeTickDollar (l : List Char) : List Char :=
  l.filter (fun c => !(c = '\x60' || c = '$'))

/-- Model of `.replace(/\$/g, "`$")` from `safeExecuteCommand`
(enhanced-mcp.js line 90): a backtick is put in front of every dollar sign. -/
def escDollar : List Char → List Char
  | [] => []
  | c :: rest => if c = '$' then '\x60' :: '$' :: escDollar rest else c :: escDollar rest

/-- Model of `.replace(/"/g, "\\\"")` used when a command is interpolated
into a quoted context (test-direct-powershell.js lines 372 and 415). -/
def escQuote : List Char → List Char
  | [] => []
  | c :: rest => if c = '"' then '\\' :: '"' :: escQuote rest else c :: escQuote rest

/-- Substring test: true when pat occurs contiguously inside l. -/
def containsSub (pat : List Char) : List Char → Bool
  | [] => pat.isEmpty
  | c :: rest => pat.isPrefixOf (c :: rest) || containsSub pat rest

/-- Section of the PowerShell script template of enhanced-mcp.js
`safeExecuteCommand` (lines 70 to 83) that precedes the user command. -/
def enhPre : String :=
  "\n              [Console]::OutputEncoding = [System.Text.Encoding]::UTF8;\n              [Console]::InputEncoding = [System.Text.Encoding]::UTF8;\n              $OutputEncoding = [System.Text.Encoding]::UTF8;\n              \n              # 日本語設定\n              [System.Threading.Thread]::CurrentThread.CurrentCulture = [System.Globalization.CultureInfo]::GetCultureInfo(\x27ja-JP\x27);\n              [System.Threading.Thread]::CurrentThread.CurrentUICulture = [System.Globalization.CultureInfo]::GetCultureInfo(\x27ja-JP\x27);\n              \n              # BOMなしUTF-8を出力設定\n              $PSDefaultParameterValues[\x27Out-File:Encoding\x27] = \x27utf8\x27;\n              $PSDefaultParameterValues[\x27*:Encoding\x27] = \x27utf8\x27;\n              \n              # 実行するコマンド\n              "

/-- Section of the PowerShell script template of enhanced-mcp.js
`safeExecuteCommand` (lines 85 to 90) that follows the user command,
containing the LASTEXITCODE re-raise block. -/
def enhPost : String :=
  "\n              \n              if ($LASTEXITCODE -ne $null -and $LASTEXITCODE -ne 0) \x7b\n                Write-Error \"Command exited with code $LASTEXITCODE\"\n                exit $LASTEXITCODE\n              \x7d\n              "

/-- Section of the PowerShell script template of test-direct-powershell.js
`executePowerShellCommand` (lines 251 to 277) that precedes the user command. -/
def tdPre : String :=
  "\n        # エンコーディング設定\n        [Console]::OutputEncoding = [System.Text.Encoding]::UTF8;\n        [Console]::InputEncoding = [System.Text.Encoding]::UTF8;\n        $OutputEncoding = [System.Text.Encoding]::UTF8;\n        \n        # PowerShell 5.1と7.xの両方に対応\n        try \x7b\n          if ($PSVersionTable.PSVersion.Major -ge 7) \x7b\n            $PSDefaultParameterValues[\x27Out-File:Encoding\x27] = \x27utf8NoBOM\x27;\n            $PSDefaultParameterValues[\x27*:Encoding\x27] = \x27utf8NoBOM\x27;\n          \x7d else \x7b\n            $PSDefaultParameterValues[\x27Out-File:Encoding\x27] = \x27utf8\x27;\n            $PSDefaultParameterValues[\x27*:Encoding\x27] = \x27utf8\x27;\n          \x7d\n        \x7d catch \x7b\n          $PSDefaultParameterValues[\x27Out-File:Encoding\x27] = \x27utf8\x27;\n        \x7d\n        \n        # ロケール設定\n        try \x7b\n          [System.Threading.Thread]::CurrentThread.CurrentCulture = [System.Globalization.CultureInfo]::GetCultureInfo(\x27ja-JP\x27);\n          [System.Threading.Thread]::CurrentThread.CurrentUICulture = [System.Globalization.CultureInfo]::GetCultureInfo(\x27ja-JP\x27);\n        \x7d catch \x7b\x7d\n        \n        # コマンド実行\n        "

/-- Section of the PowerShell script template of test-direct-powershell.js
`executePowerShellCommand` that follows the user command (before trim). -/
def tdPost : String :=
  "\n        "

/-- Full PowerShell script built by enhanced-mcp.js `safeExecuteCommand`
(powershell case, win32): the template around the command with every dollar
sign backtick-escaped afterwards. No trim is applied in that source. -/
def buildEnhScript (command : List Char) : List Char :=
  escDollar (chars enhPre ++ command ++ chars enhPost)

/-- Full PowerShell script built by test-direct-powershell.js
`executePowerShellCommand` (lines 251 to 278): the template around the
command, trimmed. -/
def buildTdScript (command : List Char) : List Char :=
  jsTrim (chars tdPre ++ command ++ chars tdPost)

/-- Leading part of the trimmed test-direct script: the template section
before the user command with the leading whitespace removed by trim. -/
def tdCore : List Char := jsTrimLeft (chars tdPre)

/-- Model of `processOutput` inside `executePowerShellCommand`
(test-direct-powershell.js lines 307 to 323), applied to the already
UTF-8-decoded output string: an empty value maps to the empty string;
otherwise a leading U+FEFF drops one character, else a leading 0xFF 0xFE
pair drops two, else a leading 0xEF 0xBB 0xBF triple drops three, else the
string is returned unchanged. -/
def processOutputPS (output : List Char) : List Char :=
  if output.isEmpty then []
  else if output[0]? = some '\uFEFF' then output.drop 1
  else if 2 ≤ output.length ∧ output[0]? = some 'ÿ' ∧ output[1]? = some 'þ' then
    output.drop 2
  else if 3 ≤ output.length ∧ output[0]? = some 'ï' ∧ output[1]? = some '»' ∧
      output[2]? = some '¿' then
    output.drop 3
  else output

/-- Model of `processOutput` inside the Git Bash and CMD branches of
`executeCommand` (test-direct-powershell.js lines 380 to 389 and 430 to
439): only a leading 0xEF 0xBB 0xBF triple is dropped. -/
def processOutputCMD (output : List Char) : List Char :=
  if output.isEmpty then []
  else if 3 ≤ output.length ∧ output[0]? = some 'ï' ∧ output[1]? = some '»' ∧
      output[2]? = some '¿' then
    output.drop 3
  else output

/-- True when the string starts with one of the three markers recognised by
`processOutputPS` (used to characterise its fixed points). -/
def startsMarkerPS (output : List Char) : Bool :=
  match output with
  | [] => false
  | c0 :: rest =>
    c0 = '\uFEFF' ||
    (match rest with
     | [] => false
     | c1 :: rest2 =>
       (c0 = 'ÿ' && c1 = 'þ') ||
       (match rest2 with
        | [] => false
        | c2 :: _ => c0 = 'ï' && c1 = '»' && c2 = '¿'))

/-- The security section of the server configuration
(test-direct-powershell.js lines 178 to 182). -/
structure SecurityConfig where
  allowedCommands : List (List Char)
  blockedCommands : List (List Char)
  maxCommandLength : Nat
deriving DecidableEq

/-- Leading whitespace-delimited token of the command, lowercased: model of
`command.trim().split(/\s+/)[0].toLowerCase()`
(test-direct-powershell.js line 230). -/
def baseCommandOf (command : List Char) : List Char :=
  jsToLower ((jsTrim command).takeWhile (fun c => !jsWs c))

/-- Model of `commandHelpers.isCommandAllowed`
(test-direct-powershell.js lines 229 to 234): a block-listed leading token
is refused; otherwise the token must be allow-listed or the allow list must
contain the wildcard entry. -/
def isCommandAllowed (cfg : SecurityConfig) (command : List Char) : Bool :=
  let baseCommand := baseCommandOf command
  if cfg.blockedCommands.contains baseCommand then false
  else cfg.allowedCommands.contains baseCommand || cfg.allowedCommands.contains ['*']

/-- Errors with which the promise chain of `executeCommand` can reject. -/
inductive ExecError where
  /-- rejection `Command not allowed` raised before anything else runs. -/
  | notAllowed
  /-- the throw `Command exceeds maximum allowed length` from `sanitizeCommand`. -/
  | commandTooLong
  /-- rejection with the error object handed to the `exec` callback. -/
  | execRejected
deriving DecidableEq

/-- Model of `commandHelpers.sanitizeCommand`
(test-direct-powershell.js lines 236 to 242): a command strictly longer
than the configured maximum throws; otherwise backticks and dollar signs
are removed. -/
def sanitizeCommand (cfg : SecurityConfig) (command : List Char) : Except ExecError (List Char) :=
  if command.length > cfg.maxCommandLength then .error .commandTooLong
  else .ok (removeTickDollar command)

/-- The three execution branches of `executeCommand`. -/
inductive ShellTarget where
  | powershell
  | gitbash
  | winCmd
deriving DecidableEq

/-- Model of the anchored regex
`/^(powershell|pwsh|invoke-|get-|set-|new-|test-|format-|out-|import-|export-|convert-|update-|select-|where-|write-|read-|add-|remove-|foreach-|start-|stop-|suspend-|resume-|wait-)/`
applied to the lowercased command (test-direct-powershell.js line 349). -/
def isPowerShellCmd (command : List Char) : Bool :=
  let low := jsToLower command
  [chars "powershell", chars "pwsh", chars "invoke-", chars "get-", chars "set-",
   chars "new-", chars "test-", chars "format-", chars "out-", chars "import-",
   chars "export-", chars "convert-", chars "update-", chars "select-", chars "where-",
   chars "write-", chars "read-", chars "add-", chars "remove-", chars "foreach-",
   chars "start-", chars "stop-", chars "suspend-", chars "resume-",
   chars "wait-"].any (fun p => p.isPrefixOf low)

/-- Match of the alternative `git\s+bash` anchored at the start: the literal
`git`, at least one whitespace character, then the literal `bash`. Because
`b` is not whitespace, consuming the maximal whitespace run is equivalent to
the backtracking regex semantics. -/
def startsGitWsBash (low : List Char) : Bool :=
  (chars "git").isPrefixOf low &&
  (match low.drop 3 with
   | [] => false
   | c :: rest => jsWs c && (chars "bash").isPrefixOf (rest.dropWhile jsWs))

/-- Match of the alternative `source\s+` anchored at the start: the literal
`source` followed by at least one whitespace character. -/
def startsSourceWs (low : List Char) : Bool :=
  (chars "source").isPrefixOf low &&
  (match low.drop 6 with
   | [] => false
   | c :: _ => jsWs c)

/-- Model of the anchored regex
`/^(bash|sh|git\s+bash|\.\/|source\s+|\.sh)/` applied to the lowercased
command (test-direct-powershell.js line 350). Every alternative, including
`\.sh`, is anchored at the start of the string. -/
def isGitBashCmd (command : List Char) : Bool :=
  let low := jsToLower command
  (chars "bash").isPrefixOf low || (chars "sh").isPrefixOf low ||
  startsGitWsBash low || (chars "./").isPrefixOf low ||
  startsSourceWs low || (chars ".sh").isPrefixOf low

/-- Shell detection of `executeCommand` (test-direct-powershell.js lines
349 to 357): PowerShell verbs win, then the Git Bash alternatives, then the
CMD fallback. -/
def classifyShell (command : List Char) : ShellTarget :=
  if isPowerShellCmd command then .powershell
  else if isGitBashCmd command then .gitbash
  else .winCmd

/-- Full command line built by the CMD branch of `executeCommand`
(test-direct-powershell.js lines 408 to 419): with a pipe or semicolon
anywhere in the sanitized command the body is re-routed through a
PowerShell -Command wrapper holding the quote-escaped command; otherwise
the sanitized command runs directly after the code page switch. -/
def buildCmdFull (sanitized : List Char) : List Char :=
  if sanitized.contains '|' || sanitized.contains ';' then
    chars "chcp 65001 >nul && powershell.exe -NoProfile -NonInteractive -ExecutionPolicy Bypass -Command " ++
      '"' :: (escQuote sanitized ++ ['"'])
  else
    chars "chcp 65001 >nul && " ++ sanitized

/-- Alphabet of standard base64 as used by Node `Buffer.toString("base64")`. -/
def b64Tbl : List Char :=
  chars "ABCDEFGHIJKLMNOPQRSTUVWXYZabcdefghijklmnopqrstuvwxyz0123456789+/"

/-- Digit-to-character map of base64 (total, with a default never reached on
indices below 64). -/
def b64Chr (n : Nat) : Char := b64Tbl.getD n 'A'

/-- Character-to-digit map of base64. -/
def b64Val (c : Char) : Option Nat := b64Tbl.indexOf? c

/-- Base64 encoding of a byte sequence with padding, the encoding performed
by `Buffer.prototype.toString("base64")` on the UTF-16LE buffer
(test-direct-powershell.js line 282, enhanced-mcp.js line 90). -/
def base64Encode : List Nat → List Char
  | [] => []
  | [a] => [b64Chr (a / 4), b64Chr (a % 4 * 16), '=', '=']
  | [a, b] => [b64Chr (a / 4), b64Chr (a % 4 * 16 + b / 16), b64Chr (b % 16 * 4), '=']
  | a :: b :: c :: rest =>
    b64Chr (a / 4) :: b64Chr (a % 4 * 16 + b / 16) ::
    b64Chr (b % 16 * 4 + c / 64) :: b64Chr (c % 64) :: base64Encode rest

/-- Base64 decoding (the inverse direction used to state the round-trip
property of the spec): groups of four characters yield three bytes, with
the two padded group shapes closing the sequence. -/
def base64Decode : List Char → Option (List Nat)
  | [] => some []
  | c0 :: c1 :: c2 :: c3 :: rest =>
    if c2 = '=' then
      if c3 = '=' ∧ rest = [] then
        match b64Val c0, b64Val c1 with
        | some v0, some v1 => some [v0 * 4 + v1 / 16]
        | _, _ => none
      else none
    else if c3 = '=' then
      if rest = [] then
        match b64Val c0, b64Val c1, b64Val c2 with
        | some v0, some v1, some v2 => some [v0 * 4 + v1 / 16, v1 % 16 * 16 + v2 / 4]
        | _, _, _ => none
      else none
    else
      match b64Val c0, b64Val c1, b64Val c2, b64Val c3, base64Decode rest with
      | some v0, some v1, some v2, some v3, some bs =>
        some ((v0 * 4 + v1 / 16) :: (v1 % 16 * 16 + v2 / 4) :: (v2 % 4 * 64 + v3) :: bs)
      | _, _, _, _, _ => none
  | _ => none

/-- UTF-16 little-endian byte encoding of a string, the encoding performed
by `Buffer.from(script, "utf16le")`: one two-byte unit below 0x10000,
otherwise a surrogate pair of four bytes. -/
def utf16leEncode : List Char → List Nat
  | [] => []
  | c :: rest =>
    let u := c.toNat
    if u < 0x10000 then u % 256 :: u / 256 :: utf16leEncode rest
    else
      let v := u - 0x10000
      let hi := 0xD800 + v / 1024
      let lo := 0xDC00 + v % 1024
      hi % 256 :: hi / 256 :: lo % 256 :: lo / 256 :: utf16leEncode rest

/-- Pairing of bytes into little-endian 16-bit units; fails on an odd
number of bytes. -/
def bytesToUnits : List Nat → Option (List Nat)
  | [] => some []
  | [_] => none
  | b0 :: b1 :: rest => (bytesToUnits rest).map (fun us => (b0 + 256 * b1) :: us)

mutual

/-- Decoding of a sequence of UTF-16 code units into characters: a
non-surrogate unit stands alone, a high surrogate must be followed by a low
surrogate, anything else fails. -/
def unitsToChars : List Nat → Option (List Char)
  | [] => some []
  | u :: rest =>
    if u < 0xD800 ∨ 0xDFFF < u then
      (unitsToChars rest).map (fun cs => Char.ofNat u :: cs)
    else if u ≤ 0xDBFF then pairRest u rest
    else none

/-- Completion of a surrogate pair whose high unit is u. -/
def pairRest (u : Nat) : List Nat → Option (List Char)
  | [] => none
  | v :: rest2 =>
    if 0xDC00 ≤ v ∧ v ≤ 0xDFFF then
      (unitsToChars rest2).map
        (fun cs => Char.ofNat (0x10000 + (u - 0xD800) * 1024 + (v - 0xDC00)) :: cs)
    else none

end

/-- UTF-16 little-endian decoding (the inverse direction used to state the
round-trip property of the spec): bytes are paired into units, then units
are decoded into characters. -/
def utf16leDecode (bytes : List Nat) : Option (List Char) :=
  (bytesToUnits bytes).bind unitsToChars

/-- Sequence of UTF-16 code units of a string (the unit-level view of
`utf16leEncode`). -/
def utf16leUnits : List Char → List Nat
  | [] => []
  | c :: rest =>
    let u := c.toNat
    if u < 0x10000 then u :: utf16leUnits rest
    else (0xD800 + (u - 0x10000) / 1024) :: (0xDC00 + (u - 0x10000) % 1024) ::
      utf16leUnits rest

/-- Base64 payload passed to `-EncodedCommand` by
`executePowerShellCommand` (test-direct-powershell.js lines 281 to 282). -/
def tdPayload (command : List Char) : List Char :=
  base64Encode (utf16leEncode (buildTdScript command))

/-- Base64 payload passed to `-EncodedCommand` by the PowerShell case of
`safeExecuteCommand` (enhanced-mcp.js lines 68 to 90). -/
def enhPayload (command : List Char) : List Char :=
  base64Encode (utf16leEncode (buildEnhScript command))

/-- Full command line of the PowerShell branch of `executeCommand`
(test-direct-powershell.js line 296). -/
def tdPsLine (sanitized : List Char) : List Char :=
  chars "chcp 65001 >nul && powershell.exe -NoProfile -NonInteractive -NoLogo -ExecutionPolicy Bypass -EncodedCommand " ++
    tdPayload sanitized

/-- Spawn descriptor of the branch selected by `executeCommand`. -/
inductive EncodedInvocation where
  /-- PowerShell branch: the composed command line with the base64 payload. -/
  | powershell (commandLine : List Char)
  /-- Git Bash branch: the quote-escaped body placed inside `bash.exe -c "..."`. -/
  | gitbash (escapedBody : List Char)
  /-- CMD branch: the composed command line of `buildCmdFull`. -/
  | winCmd (commandLine : List Char)
deriving DecidableEq

/-- Outcome of the pre-spawn stages of `executeCommand`: the selected
branch, the sanitized command handed to that branch, and the composed
invocation. -/
structure Prepared where
  target : ShellTarget
  encoderInput : List Char
  invocation : EncodedInvocation
deriving DecidableEq

/-- Per-branch composition of the invocation from the sanitized command
(test-direct-powershell.js lines 352 to 419). -/
def encodeInvocation : ShellTarget → List Char → EncodedInvocation
  | .powershell, s => .powershell (tdPsLine s)
  | .gitbash, s => .gitbash (escQuote s)
  | .winCmd, s => .winCmd (buildCmdFull s)

/-- Pre-spawn pipeline of `commandHelpers.executeCommand`
(test-direct-powershell.js lines 337 to 419): the authorization check runs
first, then `sanitizeCommand` (length check and character stripping), then
shell detection on the sanitized command, then the branch-specific
invocation is composed. -/
def prepareCommand (cfg : SecurityConfig) (command : List Char) :
    Except ExecError Prepared :=
  if isCommandAllowed cfg command then
    match sanitizeCommand cfg command with
    | .error e => .error e
    | .ok s => .ok ⟨classifyShell s, s, encodeInvocation (classifyShell s) s⟩
  else .error .notAllowed

/-- Behaviour of the spawned child process as observed through the Node
`exec` callback. -/
inductive ExecOutcome where
  /-- the child could not be started (missing executable, bad directory). -/
  | spawnFailure
  /-- the child started and exited with the given code and outputs. -/
  | completed (exitCode : Nat) (stdout stderr : List Char)
deriving DecidableEq

/-- Output record with which the promise of `executeCommand` resolves: only
the two normalized streams, no exit code and no success flag
(test-direct-powershell.js lines 325 to 328, 391 and 441). -/
structure CmdResult where
  stdout : List Char
  stderr : List Char
deriving DecidableEq

/-- Stream normalizer used by the branch that handled the command. -/
def postProcessOf : ShellTarget → List Char → List Char
  | .powershell => processOutputPS
  | .gitbash => processOutputCMD
  | .winCmd => processOutputCMD

/-- Model of `commandHelpers.executeCommand` as a whole. Node `exec` hands
the callback a non-null error exactly when the spawn failed or the child
exited with a non-zero code, and every branch of the source runs
`if (error) { reject(error); return; }` in that callback
(test-direct-powershell.js lines 299 to 304, 372 to 377 and 422 to 427), so
both conditions reject; only a zero exit resolves, with the normalized
streams. The `runner` argument is the observed child behaviour for the
composed invocation. -/
def executeCommand (cfg : SecurityConfig) (command : List Char)
    (runner : Prepared → ExecOutcome) : Except ExecError CmdResult :=
  match prepareCommand cfg command with
  | .error e => .error e
  | .ok p =>
    match runner p with
    | .spawnFailure => .error .execRejected
    | .completed exitCode out err =>
      if exitCode = 0 then .ok ⟨postProcessOf p.target out, postProcessOf p.target err⟩
      else .error .execRejected

/-- Command line composed by `safeExecuteCommand` of enhanced-mcp.js
(lines 44 to 108) from the command, the explicit shell argument (lowercased
in the switch) and the platform. The PowerShell case on win32 carries the
base64 payload of the dollar-escaped script; off win32 it is a plain
`pwsh -Command` with quote escaping; the bash case always wraps with
`bash -c`; the default case on win32 wraps with `cmd.exe /c` after the code
page switch and otherwise passes the command through unchanged. -/
def safeExecLine (command : List Char) (shell : List Char) (isWin32 : Bool) :
    List Char :=
  let s := jsToLower shell
  if s = chars "powershell" then
    if isWin32 then
      chars "chcp 65001 >nul && powershell.exe -NoProfile -ExecutionPolicy Bypass -EncodedCommand " ++
        enhPayload command
    else chars "pwsh -NoProfile -Command \"" ++ escQuote command ++ ['"']
  else if s = chars "bash" then
    chars "bash -c \"" ++ escQuote command ++ ['"']
  else if isWin32 then
    chars "chcp 65001 >nul && cmd.exe /c \"" ++ command ++ ['"']
  else command

/-- Literal match helper: strip the given literal from the front, returning
the remainder on success. -/
def stripLit (pat : String) (l : List Char) : Option (List Char) :=
  if (chars pat).isPrefixOf l then some (l.drop (chars pat).length) else none

/-- Match of `\d+` at the front (greedy; always followed by a non-digit
literal in the patterns below, so no backtracking is needed). -/
def stripDigits (l : List Char) : Option (List Char) :=
  match l with
  | c :: _ => if c.isDigit then some (l.dropWhile Char.isDigit) else none
  | [] => none

/-- Single match attempt of the regex `At line:(\d+) char:(\d+)\s*\+` at
the current position, returning the remainder after the match. -/
def matchAtLine (l : List Char) : Option (List Char) :=
  match stripLit "At line:" l with
  | none => none
  | some r1 =>
    match stripDigits r1 with
    | none => none
    | some r2 =>
      match stripLit " char:" r2 with
      | none => none
      | some r3 =>
        match stripDigits r3 with
        | none => none
        | some r4 =>
          match r4.dropWhile jsWs with
          | '+' :: r5 => some r5
          | _ => none

/-- Fuelled global replace-with-empty of the `At line:` pattern, as done by
`.replace(/At line:(\d+) char:(\d+)\s*\+/g, "")` in `formatErrorMessage`
(unnamed/part_003 line 365): scan left to right, delete every
non-overlapping match. Every step consumes at least one character, so fuel
equal to the length never runs out. -/
def stripAtLineAux : Nat → List Char → List Char
  | 0, l => l
  | _ + 1, [] => []
  | fuel + 1, c :: rest =>
    match matchAtLine (c :: rest) with
    | some r => stripAtLineAux fuel r
    | none => c :: stripAtLineAux fuel rest

/-- Global removal of `At line:N char:M ... +` markers. -/
def stripAtLine (l : List Char) : List Char := stripAtLineAux l.length l

/-- Test whether the regex `\s+\+ CategoryInfo\s+:.+` (dotall) matches at
the current position: a whitespace run, the literal `+ CategoryInfo`,
another whitespace run, a colon, and at least one further character. -/
def catInfoAt (tag : String) (l : List Char) : Bool :=
  match l with
  | [] => false
  | c :: rest =>
    jsWs c &&
    (match stripLit tag (rest.dropWhile jsWs) with
     | none => false
     | some r2 =>
       match r2 with
       | d :: r3 =>
         jsWs d &&
         (match r3.dropWhile jsWs with
          | ':' :: tail => !tail.isEmpty
          | _ => false)
       | [] => false)

/-- Replace-with-empty of a dotall pattern that runs to the end of the
string: everything from the first position where the pattern matches is
deleted, which is what `.replace(/\s+\+ Tag\s+:.+/gs, "")` does
(unnamed/part_003 lines 366 to 367). -/
def stripFromFirst (p : List Char → Bool) : List Char → List Char
  | [] => []
  | c :: rest => if p (c :: rest) then [] else c :: stripFromFirst p rest

/-- Model of `formatErrorMessage` of unnamed/part_003 (lines 355 to 383)
applied to a string input (the collected stderr text): for the powershell
shell type the three diagnostic noise patterns are removed and the result
trimmed; for cmd and gitbash the text is only trimmed; any other shell type
returns the text unchanged. -/
def formatErrorMessage (errText : List Char) (shellType : List Char) : List Char :=
  if errText.isEmpty then []
  else
    let s := jsToLower shellType
    if s = chars "powershell" then
      jsTrim (stripFromFirst (catInfoAt "+ FullyQualifiedErrorId")
        (stripFromFirst (catInfoAt "+ CategoryInfo") (stripAtLine errText)))
    else if s = chars "cmd" then jsTrim errText
    else if s = chars "gitbash" then jsTrim errText
    else errText

/-- Shell types accepted by the spawn-based `safeExecuteCommand` of
unnamed/part_003 (lines 147 to 168); any other value throws. -/
def validShellType (shellType : List Char) : Bool :=
  jsToLower shellType = chars "powershell" ||
  jsToLower shellType = chars "cmd" ||
  jsToLower shellType = chars "gitbash"

/-- Close event of the spawned child process: the exit code reported to the
`close` listener together with the collected streams. -/
inductive SpawnOutcome where
  | closed (exitCode : Int) (stdout stderr : List Char)
deriving DecidableEq

/-- Result object returned by `global.executeCommand` of unnamed/part_003:
the two streams and the exit code; there is no success field. -/
structure GlobalResult where
  stdout : List Char
  stderr : List Char
  exitCode : Int
deriving DecidableEq

/-- Errors that escape `global.executeCommand`: only the argument check
before the try block throws out of the function. -/
inductive GlobalError where
  | missingArgs
deriving DecidableEq

/-- Model of `global.executeCommand` of unnamed/part_003 (lines 599 to
655): an empty shell type or command throws before the try block; inside
the try an unknown shell type thrown by `safeExecuteCommand` is caught and
turned into a data result with exit code 1; otherwise the process runs and
the close event code is returned as data together with the streams, stderr
being passed through `formatErrorMessage`. A non-zero exit code takes the
same resolving path as a zero one. -/
def globalExecuteCommand (shellType command : List Char)
    (outcome : SpawnOutcome) : Except GlobalError GlobalResult :=
  if shellType.isEmpty || command.isEmpty then .error .missingArgs
  else if validShellType shellType then
    match outcome with
    | .closed code out err => .ok ⟨out, formatErrorMessage err shellType, code⟩
  else
    .ok ⟨[], formatErrorMessage (chars "不明なシェルタイプ: " ++ shellType) shellType, 1⟩

/-- Classification predicate written from the words of the spec (section
4.1): a POSIX-shell command is one that begins with `bash`, `sh`, `./` or
`source ` (with a literal space), or ends with `.sh`. This definition
follows the spec text, for comparison with the code-derived
`isGitBashCmd`. -/
def specPosixPred (command : List Char) : Bool :=
  let low := jsToLower command
  (chars "bash").isPrefixOf low || (chars "sh").isPrefixOf low ||
  (chars "./").isPrefixOf low || (chars "source ").isPrefixOf low ||
  (chars ".sh").isSuffixOf low

/-- Amended classification predicate: the six regex alternatives of the
source, every one anchored at the start of the lowercased command — begins
with `bash`, begins with `sh`, begins with `git` plus whitespace plus
`bash`, begins with `./`, begins with `source` plus whitespace, or begins
with `.sh`. A trailing `.sh` plays no role. -/
def amendedPosixPred (command : List Char) : Bool :=
  let low := jsToLower command
  (chars "bash").isPrefixOf low || (chars "sh").isPrefixOf low ||
  startsGitWsBash low || (chars "./").isPrefixOf low ||
  startsSourceWs low || (chars ".sh").isPrefixOf low

theorem dropWhile_append_of_ne_nil {p : Char → Bool} {A : List Char}
    (h : A.dropWhile p ≠ []) (B : List Char) :
    (A ++ B).dropWhile p = A.dropWhile p ++ B := by
  induction A with
  | nil => simp at h
  | cons a t ih =>
    by_cases hp : p a
    · rw [List.cons_append, List.dropWhile_cons_of_pos hp]
      rw [List.dropWhile_cons_of_pos hp] at h ⊢
      exact ih h
    · rw [List.cons_append, List.dropWhile_cons_of_neg hp,
        List.dropWhile_cons_of_neg hp]
      simp

theorem dropWhile_append_of_all {p : Char → Bool} {A : List Char}
    (h : ∀ a ∈ A, p a) (B : List Char) :
    (A ++ B).dropWhile p = B.dropWhile p := by
  induction A with
  | nil => simp
  | cons a t ih =>
    rw [List.cons_append, List.dropWhile_cons_of_pos (h a (by simp))]
    exact ih (fun x hx => h x (by simp [hx]))

theorem head_not_of_dropWhile_eq_self {p : Char → Bool} {c : Char}
    {t : List Char} (h : (c :: t).dropWhile p = c :: t) : p c = false := by
  by_cases hp : p c
  · rw [List.dropWhile_cons_of_pos hp] at h
    have hlen : (t.dropWhile p).length ≤ t.length := (List.dropWhile_sublist p).length_le
    rw [h] at hlen
    simp at hlen
  · exact eq_false_of_ne_true hp

theorem escDollar_append (A B : List Char) :
    escDollar (A ++ B) = escDollar A ++ escDollar B := by
  induction A with
  | nil => simp [escDollar]
  | cons a t ih =>
    by_cases h : a = '$' <;> simp [escDollar, h, ih]

theorem escDollar_eq_self_of_no_dollar {l : List Char} (h : '$' ∉ l) :
    escDollar l = l := by
  induction l with
  | nil => rfl
  | cons a t ih =>
    have ha : a ≠ '$' := fun hc => h (by simp [hc])
    simp [escDollar, ha, ih (fun hc => h (by simp [hc]))]

theorem isPrefixOf_append_self (l r : List Char) : l.isPrefixOf (l ++ r) = true := by
  induction l with
  | nil => simp [List.isPrefixOf]
  | cons a t ih => simp [List.isPrefixOf, ih]

theorem containsSub_nil (l : List Char) : containsSub [] l = true := by
  cases l <;> simp [containsSub, List.isPrefixOf]

theorem containsSub_self_append (pat Y : List Char) :
    containsSub pat (pat ++ Y) = true := by
  cases pat with
  | nil => exact containsSub_nil Y
  | cons a t =>
    show containsSub (a :: t) (a :: (t ++ Y)) = true
    rw [containsSub]
    have h := isPrefixOf_append_self (a :: t) Y
    rw [List.cons_append] at h
    simp [h]

theorem containsSub_middle (X pat Y : List Char) :
    containsSub pat (X ++ (pat ++ Y)) = true := by
  induction X with
  | nil => simpa using containsSub_self_append pat Y
  | cons x xs ih =>
    show containsSub pat (x :: (xs ++ (pat ++ Y))) = true
    rw [containsSub]
    simp [ih]

theorem jsTrimRight_append_ws {W : List Char} (hW : ∀ c ∈ W, jsWs c)
    (X : List Char) : jsTrimRight (X ++ W) = jsTrimRight X := by
  unfold jsTrimRight
  rw [List.reverse_append,
    dropWhile_append_of_all (fun a ha => hW a (List.mem_reverse.mp ha))]

theorem jsTrimRight_append_of_trimmed {cmd : List Char} (hne : cmd ≠ [])
    (h2 : cmd.reverse.dropWhile jsWs = cmd.reverse) (Y : List Char) :
    jsTrimRight (Y ++ cmd) = Y ++ cmd := by
  unfold jsTrimRight
  rw [List.reverse_append]
  rw [dropWhile_append_of_ne_nil (by rw [h2]; simpa using hne) Y.reverse]
  rw [h2, ← List.reverse_append, List.reverse_reverse]

theorem buildTdScript_of_trimmed {cmd : List Char} (hne : cmd ≠ [])
    (h2 : cmd.reverse.dropWhile jsWs = cmd.reverse) :
    buildTdScript cmd = tdCore ++ cmd := by
  unfold buildTdScript jsTrim jsTrimLeft
  have hassoc : chars tdPre ++ cmd ++ chars tdPost =
      chars tdPre ++ (cmd ++ chars tdPost) := by simp
  rw [hassoc,
    dropWhile_append_of_ne_nil (p := jsWs) (A := chars tdPre) (by decide)]
  have htc : (chars tdPre).dropWhile jsWs = tdCore := rfl
  rw [htc, show tdCore ++ (cmd ++ chars tdPost) =
      (tdCore ++ cmd) ++ chars tdPost from by simp]
  rw [jsTrimRight_append_ws (by decide)]
  exact jsTrimRight_append_of_trimmed hne h2 tdCore

theorem b64Chr_ne_eq (n : Nat) : b64Chr n ≠ '=' := by
  by_cases h : n < 64
  · have hb : ∀ m < 64, b64Chr m ≠ '=' := by decide
    exact hb n h
  · unfold b64Chr
    rw [List.getD_eq_default]
    · decide
    · have : b64Tbl.length = 64 := by decide
      omega

theorem b64Val_b64Chr {n : Nat} (h : n < 64) : b64Val (b64Chr n) = some n := by
  have hb : ∀ m < 64, b64Val (b64Chr m) = some m := by decide
  exact hb n h

theorem base64_roundtrip (l : List Nat) (h : ∀ b ∈ l, b < 256) :
    base64Decode (base64Encode l) = some l := by
  induction l using base64Encode.induct with
  | case1 => rfl
  | case2 a =>
    have ha : a < 256 := h a (by simp)
    rw [base64Encode, base64Decode]
    rw [if_pos rfl, if_pos ⟨rfl, rfl⟩]
    rw [b64Val_b64Chr (by omega), b64Val_b64Chr (by omega)]
    simp only [Option.some.injEq, List.cons.injEq, and_true]
    omega
  | case3 a b =>
    have ha : a < 256 := h a (by simp)
    have hb : b < 256 := h b (by simp)
    rw [base64Encode, base64Decode]
    rw [if_neg (b64Chr_ne_eq _), if_pos rfl, if_pos rfl]
    rw [b64Val_b64Chr (by omega), b64Val_b64Chr (by omega),
      b64Val_b64Chr (by omega)]
    simp only [Option.some.injEq, List.cons.injEq, and_true]
    omega
  | case4 a b c rest ih =>
    have ha : a < 256 := h a (by simp)
    have hb : b < 256 := h b (by simp)
    have hc : c < 256 := h c (by simp)
    rw [base64Encode, base64Decode]
    rw [if_neg (b64Chr_ne_eq _), if_neg (b64Chr_ne_eq _)]
    rw [b64Val_b64Chr (by omega), b64Val_b64Chr (by omega),
      b64Val_b64Chr (by omega), b64Val_b64Chr (by omega)]
    rw [ih (fun x hx => h x (by simp [hx]))]
    simp only [Option.some.injEq, List.cons.injEq, and_true]
    omega

theorem char_valid_ranges (c : Char) :
    c.toNat < 0xD800 ∨ (0xDFFF < c.toNat ∧ c.toNat < 0x110000) := c.valid

theorem utf16leEncode_lt (s : List Char) : ∀ b ∈ utf16leEncode s, b < 256 := by
  induction s with
  | nil => simp [utf16leEncode]
  | cons c rest ih =>
    intro b hb
    by_cases h : c.toNat < 0x10000
    · rw [utf16leEncode, if_pos h] at hb
      simp only [List.mem_cons] at hb
      rcases hb with hb | hb | hb
      · omega
      · omega
      · exact ih b hb
    · rw [utf16leEncode, if_neg h] at hb
      have hv := char_valid_ranges c
      simp only [List.mem_cons] at hb
      rcases hb with hb | hb | hb | hb | hb
      · omega
      · omega
      · omega
      · omega
      · exact ih b hb

theorem bytesToUnits_encode (s : List Char) :
    bytesToUnits (utf16leEncode s) = some (utf16leUnits s) := by
  induction s with
  | nil => rfl
  | cons c rest ih =>
    by_cases h : c.toNat < 0x10000
    · rw [utf16leEncode, if_pos h, bytesToUnits, ih, utf16leUnits]
      have hu : c.toNat % 256 + 256 * (c.toNat / 256) = c.toNat := by omega
      simp [hu, if_pos h]
    · rw [utf16leEncode, if_neg h, bytesToUnits, bytesToUnits, ih, utf16leUnits]
      have hhi : (0xD800 + (c.toNat - 0x10000) / 1024) % 256 +
          256 * ((0xD800 + (c.toNat - 0x10000) / 1024) / 256) =
          0xD800 + (c.toNat - 0x10000) / 1024 := by
        have := char_valid_ranges c
        omega
      have hlo : (0xDC00 + (c.toNat - 0x10000) % 1024) % 256 +
          256 * ((0xDC00 + (c.toNat - 0x10000) % 1024) / 256) =
          0xDC00 + (c.toNat - 0x10000) % 1024 := by omega
      simp [hhi, hlo, if_neg h]

theorem unitsToChars_units (s : List Char) :
    unitsToChars (utf16leUnits s) = some s := by
  induction s with
  | nil => rfl
  | cons c rest ih =>
    have hv := char_valid_ranges c
    by_cases h : c.toNat < 0x10000
    · rw [utf16leUnits]
      simp only [if_pos h]
      rw [unitsToChars, if_pos (by omega), ih]
      simp [Char.ofNat_toNat]
    · rw [utf16leUnits]
      simp only [if_neg h]
      rw [unitsToChars, if_neg (by omega), if_pos (by omega), pairRest,
        if_pos (by omega), ih]
      have harg : 0x10000 + (c.toNat - 0x10000) / 1024 * 1024 +
          (c.toNat - 0x10000) % 1024 = c.toNat := by omega
      simp only [Nat.add_sub_cancel_left, Option.map_some, harg,
        Char.ofNat_toNat]
      rfl

theorem utf16le_roundtrip (s : List Char) :
    utf16leDecode (utf16leEncode s) = some s := by
  rw [utf16leDecode, bytesToUnits_encode, Option.some_bind, unitsToChars_units]

theorem payload_roundtrip (s : List Char) :
    (base64Decode (base64Encode (utf16leEncode s))).bind utf16leDecode = some s := by
  rw [base64_roundtrip _ (utf16leEncode_lt s), Option.some_bind,
    utf16le_roundtrip]

theorem processOutputPS_no_marker {l : List Char}
    (h : startsMarkerPS l = false) : processOutputPS l = l := by
  match l with
  | [] => rfl
  | c0 :: rest =>
    have h0 : c0 ≠ '\uFEFF' := by
      rintro rfl
      simp [startsMarkerPS] at h
    cases rest with
    | nil => simp [processOutputPS, h0]
    | cons c1 rest2 =>
      have h1 : ¬(c0 = 'ÿ' ∧ c1 = 'þ') := by
        rintro ⟨rfl, rfl⟩
        simp [startsMarkerPS] at h
      cases rest2 with
      | nil => simp [processOutputPS, h0, h1]
      | cons c2 rest3 =>
        have h2 : ¬(c0 = 'ï' ∧ c1 = '»' ∧ c2 = '¿') := by
          rintro ⟨rfl, rfl, rfl⟩
          simp [startsMarkerPS] at h
        simp [processOutputPS, h0, h1, h2]

theorem processOutputPS_shrink {l : List Char}
    (h : startsMarkerPS l = true) : (processOutputPS l).length < l.length := by
  match l with
  | [] => simp [startsMarkerPS] at h
  | c0 :: rest =>
    by_cases h0 : c0 = '\uFEFF'
    · subst h0
      simp [processOutputPS]
    · cases rest with
      | nil =>
        exfalso
        simp [startsMarkerPS, h0] at h
      | cons c1 rest2 =>
        by_cases h1 : c0 = 'ÿ' ∧ c1 = 'þ'
        · obtain ⟨rfl, rfl⟩ := h1
          simp [processOutputPS]
          omega
        · cases rest2 with
          | nil =>
            exfalso
            simp [startsMarkerPS, h0] at h
            exact h1 h
          | cons c2 rest3 =>
            by_cases h2 : c0 = 'ï' ∧ c1 = '»' ∧ c2 = '¿'
            · obtain ⟨rfl, rfl, rfl⟩ := h2
              simp [processOutputPS, h1]
              omega
            · exfalso
              simp [startsMarkerPS, h0] at h
              rcases h with h | h
              · exact h1 h
              · exact h2 ⟨h.1.1, h.1.2, h.2⟩

/-- Claim C3, counterexample: the output normalizer leaves a string that
begins with the UTF-16BE byte-order mark FE FF untouched instead of
skipping two characters as the claim demands, and the CMD-branch
normalizer leaves even the FF FE pair untouched. -/
theorem c3_counterexample :
    processOutputPS ['þ', 'ÿ', 'a'] = ['þ', 'ÿ', 'a'] ∧
    processOutputPS ['þ', 'ÿ', 'a'] ≠ ['a'] ∧
    processOutputCMD ['ÿ', 'þ', 'a'] = ['ÿ', 'þ', 'a'] := by decide

/-- Claim C3, amended: the PowerShell-branch normalizer checks, in priority
order, a single leading U+FEFF character (skip one), then the pair FF FE
(skip two), then the triple EF BB BF (skip three), on the already decoded
string; the UTF-16BE mark FE FF is not recognised, a string without a
recognised marker is returned unchanged, and the Git Bash and CMD branch
normalizer strips only the triple EF BB BF. -/
theorem c3_amended :
    (∀ rest : List Char, processOutputPS ('\uFEFF' :: rest) = rest) ∧
    (∀ rest : List Char, processOutputPS ('ÿ' :: 'þ' :: rest) = rest) ∧
    (∀ rest : List Char, processOutputPS ('ï' :: '»' :: '¿' :: rest) = rest) ∧
    (∀ rest : List Char, processOutputPS ('þ' :: 'ÿ' :: rest) = 'þ' :: 'ÿ' :: rest) ∧
    (∀ l : List Char, startsMarkerPS l = false → processOutputPS l = l) ∧
    (∀ rest : List Char, processOutputCMD ('ï' :: '»' :: '¿' :: rest) = rest) ∧
    (∀ rest : List Char, processOutputCMD ('ÿ' :: 'þ' :: rest) = 'ÿ' :: 'þ' :: rest) := by
  refine ⟨fun rest => ?_, fun rest => ?_, fun rest => ?_, fun rest => ?_,
    fun l h => processOutputPS_no_marker h, fun rest => ?_, fun rest => ?_⟩
  · simp [processOutputPS]
  · simp [processOutputPS]
  · simp [processOutputPS]
  · simp [processOutputPS]
  · simp [processOutputCMD]
  · simp [processOutputCMD]

/-- Claim C3, witness for the amended hypothesis clause: a marker-free
string is returned unchanged. -/
theorem c3_amended_witness : processOutputPS (chars "abc") = chars "abc" :=
  c3_amended.2.2.2.2.1 (chars "abc") (by decide)

/-- Claim C9, counterexample: BOM stripping is not idempotent and can leave
a leading byte-order mark: on a string of two U+FEFF characters one
application removes only the first. -/
theorem c9_counterexample :
    processOutputPS (processOutputPS ['\uFEFF', '\uFEFF']) ≠
      processOutputPS ['\uFEFF', '\uFEFF'] ∧
    (processOutputPS ['\uFEFF', '\uFEFF'])[0]? = some '\uFEFF' := by decide

/-- Claim C9, amended: one application of the normalizer strips at most one
leading marker, so a second application is a no-op exactly when the result
of the first does not again begin with a recognised marker. -/
theorem c9_amended :
    ∀ l : List Char,
      processOutputPS (processOutputPS l) = processOutputPS l ↔
        startsMarkerPS (processOutputPS l) = false := by
  intro l
  constructor
  · intro h
    by_contra hm
    have hm2 : startsMarkerPS (processOutputPS l) = true := by
      cases hb : startsMarkerPS (processOutputPS l)
      · exact absurd hb hm
      · rfl
    have hlt := processOutputPS_shrink hm2
    rw [h] at hlt
    exact absurd hlt (lt_irrefl _)
  · exact processOutputPS_no_marker

/-- Claim C8: decoding the base64 payload handed to -EncodedCommand and
then decoding the bytes as UTF-16LE reproduces the full script, prelude
plus user command, byte for byte — for the payload of
`executePowerShellCommand` of test-direct-powershell.js and for the payload
of the PowerShell case of `safeExecuteCommand` of enhanced-mcp.js alike. -/
theorem c8_roundtrip :
    (∀ command : List Char,
       (base64Decode (tdPayload command)).bind utf16leDecode =
         some (buildTdScript command)) ∧
    (∀ command : List Char,
       (base64Decode (enhPayload command)).bind utf16leDecode =
         some (buildEnhScript command)) :=
  ⟨fun command => payload_roundtrip (buildTdScript command),
   fun command => payload_roundtrip (buildEnhScript command)⟩

/-- Claim C4, counterexample: a command that ends in .sh but starts with
none of the anchored alternatives is not routed to the POSIX shell — the
regex of the source anchors every alternative, including `\.sh`, at the
start — so `myscript.sh` goes to the CMD branch although the spec predicate
holds of it and it matches no PowerShell verb. -/
theorem c4_counterexample :
    classifyShell (chars "myscript.sh") = .winCmd ∧
    specPosixPred (chars "myscript.sh") = true ∧
    isPowerShellCmd (chars "myscript.sh") = false := by decide

/-- Claim C4, amended: a command that matches no PowerShell verb is routed
to the POSIX shell exactly when its lowercased form begins with `bash`,
`sh`, `git` plus whitespace plus `bash`, `./`, `source` plus whitespace,
or `.sh`; a trailing `.sh` plays no role. -/
theorem c4_amended :
    ∀ command : List Char, isPowerShellCmd command = false →
      (classifyShell command = .gitbash ↔ amendedPosixPred command = true) := by
  intro command h
  have he : amendedPosixPred command = isGitBashCmd command := rfl
  unfold classifyShell
  rw [h, he]
  by_cases hg : isGitBashCmd command
  · simp [hg]
  · simp [hg]

/-- Claim C4, witness: `bash ls` matches no PowerShell verb and the amended
predicate routes it to the POSIX shell. -/
theorem c4_amended_witness : classifyShell (chars "bash ls") = .gitbash :=
  (c4_amended (chars "bash ls") (by decide)).mpr (by decide)

/-- Claim C2, counterexample: the enhanced-mcp.js encoder backtick-escapes
every dollar sign of the whole template, user command included, so a
command containing a dollar sign does not appear verbatim in the script;
and the test-direct-powershell.js script contains no trailing LASTEXITCODE
check at all. -/
theorem c2_counterexample :
    containsSub (chars "echo $x") (buildEnhScript (chars "echo $x")) = false ∧
    containsSub (chars "LASTEXITCODE") (buildTdScript (chars "Get-Date")) = false := by
  decide

/-- Claim C2, amended: the enhanced-mcp.js script is the dollar-escaped
image of prelude, command and LASTEXITCODE epilogue, so the user command
appears verbatim when it contains no dollar sign, and its culture directive
is not guarded; the test-direct script is the fixed trimmed prelude — which
swallows culture failures with an empty catch and contains no LASTEXITCODE
check — followed by the user command verbatim (stated for commands with no
trailing whitespace, which trim would touch). -/
theorem c2_amended :
    (∀ command : List Char,
       buildEnhScript command =
         escDollar (chars enhPre) ++ escDollar command ++ escDollar (chars enhPost)) ∧
    (∀ command : List Char, '$' ∉ command →
       containsSub command (buildEnhScript command) = true) ∧
    containsSub (chars "if ($LASTEXITCODE -ne $null -and $LASTEXITCODE -ne 0)")
      (chars enhPost) = true ∧
    (∀ command : List Char, command ≠ [] →
       command.reverse.dropWhile jsWs = command.reverse →
       buildTdScript command = tdCore ++ command) ∧
    containsSub (chars "LASTEXITCODE") tdCore = false ∧
    containsSub (chars "catch \x7b\x7d") tdCore = true := by
  refine ⟨fun command => ?_, fun command h => ?_, by decide,
    fun command h1 h2 => buildTdScript_of_trimmed h1 h2, by decide, by decide⟩
  · unfold buildEnhScript
    rw [List.append_assoc, escDollar_append, escDollar_append,
      List.append_assoc]
  · unfold buildEnhScript
    rw [List.append_assoc, escDollar_append, escDollar_append,
      escDollar_eq_self_of_no_dollar h]
    exact containsSub_middle _ _ _

/-- Claim C2, witness: a dollar-free command appears verbatim in the
enhanced script, and the test-direct script for `Get-Date` is the fixed
prelude followed by the command. -/
theorem c2_amended_witness :
    containsSub (chars "dir") (buildEnhScript (chars "dir")) = true ∧
    buildTdScript (chars "Get-Date") = tdCore ++ chars "Get-Date" :=
  ⟨c2_amended.2.1 (chars "dir") (by decide),
   c2_amended.2.2.2.1 (chars "Get-Date") (by decide) (by decide)⟩

theorem prepareCommand_not_allowed {cfg : SecurityConfig} {command : List Char}
    (h : isCommandAllowed cfg command = false) :
    prepareCommand cfg command = .error .notAllowed := by
  unfold prepareCommand
  rw [h]
  simp

theorem prepareCommand_too_long {cfg : SecurityConfig} {command : List Char}
    (h1 : isCommandAllowed cfg command = true)
    (h2 : command.length > cfg.maxCommandLength) :
    prepareCommand cfg command = .error .commandTooLong := by
  unfold prepareCommand sanitizeCommand
  rw [h1, if_pos h2]
  simp

theorem prepareCommand_ok {cfg : SecurityConfig} {command : List Char}
    (h1 : isCommandAllowed cfg command = true)
    (h2 : ¬command.length > cfg.maxCommandLength) :
    prepareCommand cfg command =
      .ok ⟨classifyShell (removeTickDollar command), removeTickDollar command,
        encodeInvocation (classifyShell (removeTickDollar command))
          (removeTickDollar command)⟩ := by
  unfold prepareCommand sanitizeCommand
  rw [h1, if_neg h2]
  simp

theorem executeCommand_of_error {cfg : SecurityConfig} {command : List Char}
    (runner : Prepared → ExecOutcome) {e : ExecError}
    (h : prepareCommand cfg command = .error e) :
    executeCommand cfg command runner = .error e := by
  unfold executeCommand
  rw [h]

theorem executeCommand_of_ok {cfg : SecurityConfig} {command : List Char}
    (runner : Prepared → ExecOutcome) {p : Prepared}
    (h : prepareCommand cfg command = .ok p) :
    executeCommand cfg command runner =
      (match runner p with
       | .spawnFailure => .error .execRejected
       | .completed code out err =>
         if code = 0 then
           .ok ⟨postProcessOf p.target out, postProcessOf p.target err⟩
         else .error .execRejected) := by
  unfold executeCommand
  rw [h]

/-- Claim C5: a command whose leading whitespace-delimited token is
block-listed, or neither allow-listed nor covered by a wildcard entry, is
rejected with the permission error before anything else: the rejection is
the same for every possible child-process behaviour, so no process is
spawned, and no sanitization, classification or encoding output is
produced. -/
theorem c5_unauthorized_fail_fast :
    ∀ (cfg : SecurityConfig) (command : List Char) (runner : Prepared → ExecOutcome),
      (cfg.blockedCommands.contains (baseCommandOf command) = true ∨
       (cfg.allowedCommands.contains (baseCommandOf command) = false ∧
        cfg.allowedCommands.contains ['*'] = false)) →
      executeCommand cfg command runner = .error .notAllowed := by
  intro cfg command runner h
  have hia : isCommandAllowed cfg command = false := by
    unfold isCommandAllowed
    by_cases hb : cfg.blockedCommands.contains (baseCommandOf command) = true
    · simp [hb]
      intro hnb
      exact absurd (by simpa using hb) hnb
    · simp only [Bool.not_eq_true] at hb
      rcases h with h | ⟨h1, h2⟩
      · rw [h] at hb
        exact absurd hb (by simp)
      · simp [hb, h1, h2]
        intro _
        exact ⟨by simpa using h1, by simpa using h2⟩
  exact executeCommand_of_error runner (prepareCommand_not_allowed hia)

/-- Claim C5, witness: with `format` block-listed, `format C:` is rejected
with the permission error whatever the runner would have done. -/
theorem c5_witness :
    executeCommand ⟨[chars "dir"], [chars "format"], 1000⟩ (chars "format C:")
      (fun _ => .completed 0 [] []) = .error .notAllowed :=
  c5_unauthorized_fail_fast _ _ _ (by decide)

/-- Claim C6: an allowed command strictly longer than the configured
maximum is rejected with the length error before classification and before
any process behaviour matters, while a command of exactly the maximum
length is never rejected by the length check. -/
theorem c6_length_check :
    (∀ (cfg : SecurityConfig) (command : List Char) (runner : Prepared → ExecOutcome),
       isCommandAllowed cfg command = true →
       command.length > cfg.maxCommandLength →
       executeCommand cfg command runner = .error .commandTooLong) ∧
    (∀ (cfg : SecurityConfig) (command : List Char) (runner : Prepared → ExecOutcome),
       command.length = cfg.maxCommandLength →
       executeCommand cfg command runner ≠ .error .commandTooLong) := by
  constructor
  · intro cfg command runner hallow hlen
    exact executeCommand_of_error runner (prepareCommand_too_long hallow hlen)
  · intro cfg command runner hlen
    by_cases ha : isCommandAllowed cfg command = true
    · rw [executeCommand_of_ok runner
        (prepareCommand_ok ha (by rw [hlen]; omega))]
      cases runner ⟨classifyShell (removeTickDollar command),
          removeTickDollar command,
          encodeInvocation (classifyShell (removeTickDollar command))
            (removeTickDollar command)⟩ with
      | spawnFailure => simp
      | completed code out err =>
        by_cases hc : code = 0 <;> simp [hc]
    · simp only [Bool.not_eq_true] at ha
      rw [executeCommand_of_error runner (prepareCommand_not_allowed ha)]
      simp

/-- Claim C6, witness: with a three-character command against a maximum of
two the length error is raised, and against a maximum of exactly three it
is not. -/
theorem c6_witness :
    executeCommand ⟨[chars "dir"], [], 2⟩ (chars "dir")
      (fun _ => .completed 0 [] []) = .error .commandTooLong ∧
    executeCommand ⟨[chars "dir"], [], 3⟩ (chars "dir")
      (fun _ => .completed 0 [] []) ≠ .error .commandTooLong :=
  ⟨c6_length_check.1 _ _ _ (by decide) (by decide),
   c6_length_check.2 _ _ _ (by decide)⟩

theorem prepared_of_ok {cfg : SecurityConfig} {command : List Char} {p : Prepared}
    (h : prepareCommand cfg command = .ok p) :
    p = ⟨classifyShell (removeTickDollar command), removeTickDollar command,
      encodeInvocation (classifyShell (removeTickDollar command))
        (removeTickDollar command)⟩ := by
  by_cases ha : isCommandAllowed cfg command = true
  · by_cases hl : command.length > cfg.maxCommandLength
    · rw [prepareCommand_too_long ha hl] at h
      exact absurd h (by simp)
    · rw [prepareCommand_ok ha hl] at h
      exact ((Except.ok.injEq _ _).mp h).symm
  · simp only [Bool.not_eq_true] at ha
    rw [prepareCommand_not_allowed ha] at h
    exact absurd h (by simp)

theorem removeTickDollar_no_tick_dollar (command : List Char) :
    '\x60' ∉ removeTickDollar command ∧ '$' ∉ removeTickDollar command := by
  constructor <;>
    · intro hm
      have := List.mem_filter.mp hm
      simp at this

/-- Claim C10: whenever the pre-spawn pipeline accepts a command, the
sanitization has removed every backtick and dollar sign before shell
detection ran, the string handed to the selected branch — PowerShell,
Git Bash and CMD alike — is exactly the stripped command, and the branch
was chosen by classifying that stripped string. -/
theorem c10_sanitize_before_detection :
    ∀ (cfg : SecurityConfig) (command : List Char) (p : Prepared),
      prepareCommand cfg command = .ok p →
      p.encoderInput = removeTickDollar command ∧
      '\x60' ∉ p.encoderInput ∧ '$' ∉ p.encoderInput ∧
      p.target = classifyShell (removeTickDollar command) ∧
      p.invocation = encodeInvocation (classifyShell (removeTickDollar command))
        (removeTickDollar command) := by
  intro cfg command p h
  rw [prepared_of_ok h]
  exact ⟨rfl, (removeTickDollar_no_tick_dollar command).1,
    (removeTickDollar_no_tick_dollar command).2, rfl, rfl⟩

/-- Claim C10, witness: a command carrying a backtick and a dollar sign is
accepted with both characters stripped, and the branch is chosen from the
stripped string. -/
theorem c10_witness :
    (⟨.winCmd, chars "dir x", .winCmd (buildCmdFull (chars "dir x"))⟩ :
      Prepared).encoderInput = removeTickDollar (chars "dir \x60$x") ∧
    '$' ∉ (⟨.winCmd, chars "dir x", .winCmd (buildCmdFull (chars "dir x"))⟩ :
      Prepared).encoderInput := by
  have h := c10_sanitize_before_detection ⟨[chars "dir"], [], 1000⟩
    (chars "dir \x60$x")
    ⟨.winCmd, chars "dir x", .winCmd (buildCmdFull (chars "dir x"))⟩
    (by decide)
  exact ⟨h.1, h.2.2.1⟩

/-- Claim C7, counterexample: the CMD path of `safeExecuteCommand` in
enhanced-mcp.js never re-routes through PowerShell — a command containing a
pipe is wrapped directly in `cmd.exe /c` after the code page switch, with
no PowerShell wrapper, contrary to the claim that every command routed to
the Windows CMD target with a pipe or semicolon is re-routed. -/
theorem c7_counterexample :
    safeExecLine (chars "dir | sort") (chars "default") true =
      chars "chcp 65001 >nul && cmd.exe /c \"dir | sort\"" ∧
    containsSub (chars "powershell") (safeExecLine (chars "dir | sort")
      (chars "default") true) = false := by decide

/-- Claim C7, amended: in the CMD branch of `commandHelpers.executeCommand`
the sanitized command is re-routed through the quoted PowerShell -Command
wrapper exactly when it contains a pipe or a semicolon, and otherwise runs
directly after the chcp 65001 prefix; the CMD path of `safeExecuteCommand`
in enhanced-mcp.js instead always invokes `cmd.exe /c` directly with the
chcp prefix, pipes and semicolons included. -/
theorem c7_amended :
    (∀ (cfg : SecurityConfig) (command : List Char) (p : Prepared),
       prepareCommand cfg command = .ok p → p.target = .winCmd →
       ((p.encoderInput.contains '|' = true ∨ p.encoderInput.contains ';' = true) →
          p.invocation = .winCmd
            (chars "chcp 65001 >nul && powershell.exe -NoProfile -NonInteractive -ExecutionPolicy Bypass -Command " ++
              '"' :: (escQuote p.encoderInput ++ ['"']))) ∧
       (p.encoderInput.contains '|' = false ∧ p.encoderInput.contains ';' = false →
          p.invocation = .winCmd (chars "chcp 65001 >nul && " ++ p.encoderInput))) ∧
    (∀ command : List Char,
       safeExecLine command (chars "default") true =
         chars "chcp 65001 >nul && cmd.exe /c \"" ++ command ++ ['"']) := by
  constructor
  · intro cfg command p h ht
    rw [prepared_of_ok h] at ht ⊢
    simp only at ht ⊢
    rw [ht]
    have hw : encodeInvocation .winCmd (removeTickDollar command) =
        .winCmd (buildCmdFull (removeTickDollar command)) := rfl
    rw [hw]
    unfold buildCmdFull
    constructor
    · intro hps
      rw [if_pos (show ((removeTickDollar command).contains '|' ||
          (removeTickDollar command).contains ';') = true from by
        simp only [Bool.or_eq_true]
        rcases hps with hps | hps
        · exact Or.inl hps
        · exact Or.inr hps)]
    · intro hns
      rw [if_neg (show ¬((removeTickDollar command).contains '|' ||
          (removeTickDollar command).contains ';') = true from by
        simp only [Bool.or_eq_true]
        rintro (hc | hc)
        · rw [hns.1] at hc
          exact absurd hc (by simp)
        · rw [hns.2] at hc
          exact absurd hc (by simp))]
  · intro command
    rfl

/-- Claim C7, witness: with a pipe in the sanitized command the CMD branch
hands the runner the PowerShell -Command wrapper. -/
theorem c7_witness :
    (⟨.winCmd, chars "dir | sort", .winCmd (buildCmdFull (chars "dir | sort"))⟩ :
        Prepared).invocation = .winCmd
      (chars "chcp 65001 >nul && powershell.exe -NoProfile -NonInteractive -ExecutionPolicy Bypass -Command " ++
        '"' :: (escQuote (chars "dir | sort") ++ ['"'])) :=
  ((c7_amended.1 ⟨[chars "dir"], [], 1000⟩ (chars "dir | sort")
      ⟨.winCmd, chars "dir | sort", .winCmd (buildCmdFull (chars "dir | sort"))⟩
      (by decide) (by decide)).1 (by decide))

/-- Claim C1, counterexample: the exec-based `executeCommand` rejects when
an allowed command starts and exits with code 2 — Node exec hands the
callback a non-null error for every non-zero exit code and every branch of
the source rejects on it — instead of resolving with exit-code data as the
claim demands; no resolved result is produced at all. -/
theorem c1_counterexample :
    executeCommand ⟨[chars "dir"], [], 1000⟩ (chars "dir")
      (fun _ => .completed 2 [] []) = .error .execRejected ∧
    (∀ r : CmdResult, executeCommand ⟨[chars "dir"], [], 1000⟩ (chars "dir")
      (fun _ => .completed 2 [] []) ≠ .ok r) := by
  constructor
  · decide
  · intro r hr
    rw [(by decide : executeCommand ⟨[chars "dir"], [], 1000⟩ (chars "dir")
      (fun _ => .completed 2 [] []) = .error .execRejected)] at hr
    exact absurd hr (by simp)

/-- Claim C1, amended: in the exec-based `commandHelpers.executeCommand` a
non-zero exit code of a successfully started child is delivered as an exec
error and makes the promise reject exactly like a spawn failure, and even a
resolving run carries no exit code or success flag; in the spawn-based
`global.executeCommand` of unnamed/part_003 a non-zero exit code does not
reject — the close-event code is returned as data in the exitCode field —
but the result has no success flag, and that path never rejects on child
behaviour at all. -/
theorem c1_amended :
    (∀ (cfg : SecurityConfig) (command : List Char)
       (runner : Prepared → ExecOutcome) (p : Prepared) (code : Nat)
       (out err : List Char),
       prepareCommand cfg command = .ok p →
       runner p = .completed code out err →
       code ≠ 0 →
       executeCommand cfg command runner = .error .execRejected) ∧
    (∀ (cfg : SecurityConfig) (command : List Char)
       (runner : Prepared → ExecOutcome) (p : Prepared),
       prepareCommand cfg command = .ok p →
       runner p = .spawnFailure →
       executeCommand cfg command runner = .error .execRejected) ∧
    (∀ (shellType command : List Char) (code : Int) (out err : List Char),
       shellType ≠ [] → command ≠ [] → validShellType shellType = true →
       globalExecuteCommand shellType command (.closed code out err) =
         .ok ⟨out, formatErrorMessage err shellType, code⟩) := by
  refine ⟨?_, ?_, ?_⟩
  · intro cfg command runner p code out err hp hr hc
    rw [executeCommand_of_ok runner hp, hr]
    simp [hc]
  · intro cfg command runner p hp hr
    rw [executeCommand_of_ok runner hp, hr]
  · intro shellType command code out err hs hc hv
    unfold globalExecuteCommand
    rw [if_neg (by simp [hs, hc]), if_pos hv]

/-- Claim C1, witness: a child of the exec-based pipeline exiting with code
5 makes the run reject, and the spawn-based global executor returns exit
code 5 as data. -/
theorem c1_amended_witness :
    executeCommand ⟨[chars "dir"], [], 1000⟩ (chars "dir")
      (fun _ => .completed 5 [] []) = .error .execRejected ∧
    globalExecuteCommand (chars "cmd") (chars "dir") (.closed 5 [] []) =
      .ok ⟨[], formatErrorMessage [] (chars "cmd"), 5⟩ :=
  ⟨c1_amended.1 ⟨[chars "dir"], [], 1000⟩ (chars "dir")
      (fun _ => .completed 5 [] [])
      ⟨.winCmd, chars "dir", .winCmd (buildCmdFull (chars "dir"))⟩ 5 [] []
      (by decide) rfl (by decide),
   c1_amended.2.2 (chars "cmd") (chars "dir") 5 [] []
      (by decide) (by decide) (by decide)⟩
